import Mathlib

/-!
Verification of the action-decoding head and loss computer of
`genrobo3d/models/motion_planner_ptv3.py` (ActionHead,
MotionPlannerPTV3AdaNorm, MotionPlannerPTV3CA).

Tensors are shallowly embedded as functions over `Fin`-index spaces and, for
the ragged per-sample point dimension, as `List`s split by per-sample point
counts exactly as `torch.split` does.  Real scalars model floating-point
values; division by zero yields `0` in this model (floating point would give
NaN or inf), which we point out wherever it matters.
-/

open scoped BigOperators

noncomputable section

namespace MotionPlannerPTV3

/-! ## Ragged-batch primitives -/

/-- Embeds `torch.split(xs, ns)`: cut the flattened point list `xs` into consecutive
groups of sizes `ns` (the per-sample point counts `npoints_in_batch`). -/
def splitCounts : List ℕ → List α → List (List α)
  | [], _ => []
  | n :: ns, xs => xs.take n :: splitCounts ns (xs.drop n)

/-- Embeds `torch.softmax(x / temp, dim=0)` over a ragged group held as a list. -/
def softmaxL (temp : ℝ) (xs : List ℝ) : List ℝ :=
  xs.map (fun x => Real.exp (x / temp) / (xs.map (fun y => Real.exp (y / temp))).sum)

/-- Embeds `torch.softmax` over a `Fin`-indexed axis (temperature-scaled), as used for
the per-sample attention weights. -/
def softmaxFin (n : ℕ) (temp : ℝ) (f : Fin n → ℝ) : Fin n → ℝ :=
  fun p => Real.exp (f p / temp) / ∑ q, Real.exp (f q / temp)

/-! ## Scalar loss primitives (the `torch.nn.functional` collaborators) -/

/-- Embeds `F.binary_cross_entropy_with_logits(x, y)` for a single element:
`-y*log σ(x) - (1-y)*log (1-σ(x)) = log (1 + exp x) - x*y`. -/
def bceWithLogits (x y : ℝ) : ℝ := Real.log (1 + Real.exp x) - x * y

/-- The quantity `log ∑ exp` over the class axis, the normalizer inside `F.cross_entropy`. -/
def logSumExp (n : ℕ) (f : Fin n → ℝ) : ℝ := Real.log (∑ j, Real.exp (f j))

/-- Embeds `F.cross_entropy` (reduction `none`) for one row with an integer class
target: `-log_softmax(logits)[cls]`. -/
def crossEntropyIdx (n : ℕ) (logits : Fin n → ℝ) (cls : Fin n) : ℝ :=
  logSumExp n logits - logits cls

/-- Embeds `F.cross_entropy` (reduction `none`) for one row whose classes are the
flattened `(point, bin)` pairs and whose target is a probability vector:
`-∑ k target k * log_softmax(logits) k`. -/
def crossEntropyProbs2 (N B : ℕ) (logits target : Fin N → Fin B → ℝ) : ℝ :=
  ∑ p, ∑ k, target p k * (Real.log (∑ q, ∑ j, Real.exp (logits q j)) - logits p k)

/-- Embeds `F.mse_loss(p, q, reduction='none').mean(-1)` for one row of width `d`. -/
def mseMeanLast (d : ℕ) (p q : Fin d → ℝ) : ℝ := (∑ c, (p c - q c) ^ 2) / d

/-! ## ActionHead.forward — position branch

The point dimension is ragged, so points are a `List`; per point we carry the
`heatmap_mlp` output as a function of the trajectory step (the learned MLP
itself is an opaque collaborator: we embed its per-point outputs).  For the
`heatmap_mlp` mode the MLP emits 4 channels per (point, step): channel 0 is
the heatmap logit, channels 1..3 the 3D offset added to the point coordinate
(`new_coords = coords.unsqueeze(1) + heatmap_embeds[..., 1:]`). -/

/-- The `heatmap_mlp` position mode of `ActionHead.forward`:
split the per-(point, step) logits by `npoints_in_batch`, softmax within each
sample over its points (dim 0, temperature-scaled), split
`new_coords = coord + offset` alike and take the per-sample weighted sum
(`torch.einsum('pt,ptc->tc', h, p)`). -/
def posHeatmapMLP (T : ℕ) (hm : List (Fin T → Fin 4 → ℝ)) (coords : List (Fin 3 → ℝ))
    (ns : List ℕ) (temp : ℝ) : List (Fin T → Fin 3 → ℝ) :=
  let newCoords := List.zipWith (fun h c => fun t j => c j + h t j.succ) hm coords
  let heatmaps := splitCounts ns (hm.map (fun h => fun t => h t 0))
  let newCoordGroups := splitCounts ns newCoords
  List.zipWith
    (fun gh gc => fun t j =>
      (List.zipWith (fun w nc => w * nc t j) (softmaxL temp (gh.map (fun l => l t))) gc).sum)
    heatmaps newCoordGroups

/-- Raw position output of the head: per-sample soft-argmax coordinates in
`heatmap_mlp` mode, or the `(t, c, point, bin)` logit tensor in
`heatmap_disc` mode (the `einops.rearrange 'n t (c b) -> t c n b'` layout). -/
inductive PosHeadOut (T B : ℕ) where
  | mlpOut (xt : List (Fin T → Fin 3 → ℝ))
  | discOut (xt : Fin T → Fin 3 → List (Fin B → ℝ))

/-- Position-prediction mode (`config.action_config.pos_pred_type`). -/
inductive PosPredType where
  | heatmap_mlp
  | heatmap_disc
deriving DecidableEq

/-- Dispatch of the position branch of `ActionHead.forward` on
`pos_pred_type`.  `coords` is an `Option`: the Python argument defaults to
`None`, and the `heatmap_mlp` branch dereferences it
(`coords.unsqueeze(1)`), which fails on `None` — modelled as `none`.  The
`heatmap_disc` branch never touches `coords`.  `hm4` / `hmD` are the
per-point outputs of the mode's `heatmap_mlp` MLP (only the configured one
is read, mirroring the single MLP the Python module owns). -/
def actionHeadPos (T B : ℕ) (ppt : PosPredType)
    (hm4 : List (Fin T → Fin 4 → ℝ)) (hmD : List (Fin T → Fin 3 → Fin B → ℝ))
    (coords : Option (List (Fin 3 → ℝ))) (ns : List ℕ) (temp : ℝ) :
    Option (PosHeadOut T B) :=
  match ppt with
  | .heatmap_mlp =>
      match coords with
      | none => none
      | some cs => some (.mlpOut (posHeatmapMLP T hm4 cs ns temp))
  | .heatmap_disc => some (.discOut (fun t c => hmD.map (fun h => h t c)))

/-! ## ActionHead.forward — `attn` reduction branch

`action_embeds = self.action_mlp(point_embeds)` has shape
`(#points, max_traj_len, output_size+1)`.  The code then slices
`action_embeds[:, :1]` — the **trajectory** dimension — so the softmax
weights are the step-0 embeddings of *every* channel, and the weighted sum
runs over steps `1..max_traj_len-1` only.  We embed one sample's group of
`n` points (the per-sample split is the same `torch.split` as above). -/

/-- The `attn` pooling exactly as written in the source: weights are
`softmax(action_embeds[:, :1] / temp, dim=0)` (step 0, all channels), values
are `action_embeds[:, 1:]` (steps 1..), result has `max_traj_len - 1` steps.
Here `a` is `action_mlp(point_embeds)` for the sample's `n` points over
`T+1 = max_traj_len` steps and `C = output_size+1` channels. -/
def attnPoolCode (n T C : ℕ) (a : Fin n → Fin (T + 1) → Fin C → ℝ) (temp : ℝ) :
    Fin T → Fin C → ℝ :=
  fun t c => ∑ p, softmaxFin n temp (fun q => a q 0 c) p * a p t.succ c

/-- Modelled from the spec: the `attn` reduction as the specification
describes it — the **first output channel** of each point's MLP output is the
per-point attention logit, softmax-normalized over the sample's points
(temperature-scaled) and used to weight-sum the **remaining output
channels**, per trajectory step.  (This per-channel slicing is not what the
source line `action_embeds[:, :1]` does.) -/
def attnPoolSpec (n T C : ℕ) (a : Fin n → Fin T → Fin (C + 1) → ℝ) (temp : ℝ) :
    Fin T → Fin C → ℝ :=
  fun t c => ∑ p, softmaxFin n temp (fun q => a q t 0) p * a p t c.succ

/-! ## ActionHead.forward — rotation output (quaternion case) -/

/-- Embeds `xr / xr.square().sum(dim=-1, keepdim=True).sqrt()`: L2 normalization of
the 4 quaternion channels.  Unguarded: a zero input vector divides by
`sqrt 0 = 0` (NaN in floating point; `0` in this exact model). -/
def normalizeQuat (q : Fin 4 → ℝ) : Fin 4 → ℝ :=
  fun c => q c / Real.sqrt (∑ j, (q j) ^ 2)

/-- Quaternion head output: slice the first 4 channels of the pooled action
embeddings (`xr = action_embeds[..., :4]`) and L2-normalize. -/
def quatHead (b T k : ℕ) (actionEmbeds : Fin b → Fin T → Fin (k + 4) → ℝ) :
    Fin b → Fin T → Fin 4 → ℝ :=
  fun i t => normalizeQuat (fun c => actionEmbeds i t (Fin.castLE (Nat.le_add_left 4 k) c))

/-! ## prepare_ptv3_batch — semantic-label embedding

`MotionPlannerPTV3CA.prepare_ptv3_batch` computes
`(emb[None,:,:] * pc_labels[:,:,None]).sum(dim=1)` — shapes
`(1,4,C) * (npoints,4,1) → (npoints,4,C)`, summed over the class axis.
`MotionPlannerPTV3AdaNorm.prepare_ptv3_batch` instead writes
`(emb[None,None,:] * pc_labels).sum(dim=1)` — shapes `(1,1,4,C)` against
`(npoints,4)`, which must broadcast.  We model torch's broadcasting rule on
shape lists to evaluate that line. -/

/-- Torch broadcast of one dimension pair: equal, or one of them is 1. -/
def broadcastDim (a b : ℕ) : Option ℕ :=
  if a = b then some a else if a = 1 then some b else if b = 1 then some a else none

/-- Broadcast of two reversed (trailing-dimension-first) shape lists. -/
def broadcastShapeRev : List ℕ → List ℕ → Option (List ℕ)
  | [], ys => some ys
  | xs, [] => some xs
  | x :: xs, y :: ys => do
      let d ← broadcastDim x y
      let rest ← broadcastShapeRev xs ys
      some (d :: rest)

/-- Torch broadcasting of two shapes (right-aligned). -/
def broadcastShape (xs ys : List ℕ) : Option (List ℕ) :=
  (broadcastShapeRev xs.reverse ys.reverse).map List.reverse

/-- The shape of the elementwise product
`self.pc_label_embedding(torch.LongTensor([0,1,2,3], ...))[None,None,:] * batch['pc_labels']`
in `MotionPlannerPTV3AdaNorm.prepare_ptv3_batch`: the embedding table
`(4, C)` indexed with `[None,None,:]` has shape `(1, 1, 4, C)`, and
`pc_labels` has shape `(npoints, 4)`. -/
def adaNormLabelBroadcast (npoints C : ℕ) : Option (List ℕ) :=
  broadcastShape [1, 1, 4, C] [npoints, 4]

/-- The `MotionPlannerPTV3CA.prepare_ptv3_batch` label embedding:
`(emb[None,:,:] * pc_labels[:,:,None]).sum(dim=1)` — entry `(p, c)` is
`∑ k, emb k c * labels p k`. -/
def caPcLabelEmbeds (C n : ℕ) (emb : Fin 4 → Fin C → ℝ) (labels : Fin n → Fin 4 → ℝ) :
    Fin n → Fin C → ℝ :=
  fun p c => ∑ k, emb k c * labels p k

/-- Modelled from the spec: the per-point weighted sum of the four
semantic-class embedding vectors, using the point's 4-way (soft or one-hot)
label vector as the weights. -/
def specLabelWeightedSum (C n : ℕ) (emb : Fin 4 → Fin C → ℝ) (labels : Fin n → Fin 4 → ℝ) :
    Fin n → Fin C → ℝ :=
  fun p c => ∑ k, labels p k * emb k c

/-! ## compute_loss -/

/-- Rotation representation (`config.action_config.rot_pred_type`; the code's
`else` branch is `euler_delta`). -/
inductive RotPredType where
  | quat
  | rot6d
  | euler
  | euler_disc
  | euler_delta
deriving DecidableEq

/-- The configuration slice read by `compute_loss`. -/
structure LossConfig where
  pos_pred_type : PosPredType
  rot_pred_type : RotPredType
  pos_weight : ℝ
  rot_weight : ℝ

/-- All tensors `compute_loss` reads. `b` samples, `T = max_traj_len` steps,
`n i` points in sample `i`, `B = pos_bins*2` position bins, `E = euler_bins`.
The Python function receives one duck-typed `pred_actions` tuple and one
`tgt_actions` tensor whose rotation block's width depends on the configured
representation; here every representation's field is present and only the
configured one is read.  `tgtPos`, `tgtRot…`, `tgtOpen` are the slices
`tgt_actions[..., :3]`, `tgt_actions[..., 3:-1]`, `tgt_actions[..., -1]`. -/
structure LossInputs (b T B E : ℕ) (n : Fin b → ℕ) where
  predPos : Fin b → Fin T → Fin 3 → ℝ
  predPosDisc : (i : Fin b) → Fin T → Fin 3 → Fin (n i) → Fin B → ℝ
  predRotQuat : Fin b → Fin T → Fin 4 → ℝ
  predRot6d : Fin b → Fin T → Fin 6 → ℝ
  predRotEuler : Fin b → Fin T → Fin 3 → ℝ
  predRotEulerDisc : Fin b → Fin T → Fin E → Fin 3 → ℝ
  predOpen : Fin b → Fin T → ℝ
  predStop : Fin b → Fin T → ℝ
  tgtPos : Fin b → Fin T → Fin 3 → ℝ
  tgtRotQuat : Fin b → Fin T → Fin 4 → ℝ
  tgtRotEuler : Fin b → Fin T → Fin 3 → ℝ
  tgtRotEulerDisc : Fin b → Fin T → Fin 3 → Fin E
  tgtOpen : Fin b → Fin T → ℝ
  tgtStops : Fin b → Fin T → ℝ
  discPosProbs : (i : Fin b) → Fin T → Fin 3 → Fin (n i) → Fin B → ℝ
  masks : Fin b → Fin T → ℝ
  quatToOrtho6d : (Fin 4 → ℝ) → Fin 6 → ℝ

/-- The returned loss dictionary: exactly the keys
`pos`, `rot`, `open`, `stop`, `total`. -/
structure LossDict where
  pos : ℝ
  rot : ℝ
  «open» : ℝ
  stop : ℝ
  total : ℝ

/-- Position loss, `heatmap_mlp` mode:
`sum(mse_loss(pred, tgt, 'none') * mask.unsqueeze(-1)) / mask.sum() / 3`. -/
def posLossMLP (b T : ℕ) (predPos tgtPos : Fin b → Fin T → Fin 3 → ℝ)
    (mask : Fin b → Fin T → ℝ) : ℝ :=
  (∑ i, ∑ t, ∑ c, (predPos i t c - tgtPos i t c) ^ 2 * mask i t) / (∑ i, ∑ t, mask i t) / 3

/-- Position loss, `heatmap_disc` mode: per sample, cross-entropy of the
`(t, c)`-row logits over the flattened `(point, bin)` classes against the
target distribution, times the step mask broadcast over the 3 axes, divided
by the mask sum (`3 * ∑ t mask`), then averaged over samples
(`pos_loss /= len(npoints_in_batch)`). -/
def posLossDisc (b T B : ℕ) (n : Fin b → ℕ)
    (predPosDisc discPosProbs : (i : Fin b) → Fin T → Fin 3 → Fin (n i) → Fin B → ℝ)
    (mask : Fin b → Fin T → ℝ) : ℝ :=
  (∑ i, (∑ t, ∑ c : Fin 3,
      crossEntropyProbs2 (n i) B (predPosDisc i t c) (discPosProbs i t c) * mask i t)
    / (3 * ∑ t, mask i t)) / b

/-- Rotation loss, `quat`: per (sample, step) MSE against the target
quaternion and against its negation, then
`select_mask * rot_loss + (1 - select_mask) * rot_loss_` with
`select_mask = (rot_loss < rot_loss_).float()`, then `.mean()` over the
`(b, T)` grid.  No trajectory mask is applied in this branch. -/
def rotLossQuat (b T : ℕ) (predRot tgtRot : Fin b → Fin T → Fin 4 → ℝ) : ℝ :=
  (∑ i, ∑ t,
    (let rl := mseMeanLast 4 (predRot i t) (tgtRot i t)
     let rl' := mseMeanLast 4 (predRot i t) (fun c => -tgtRot i t c)
     let sel : ℝ := if rl < rl' then 1 else 0
     sel * rl + (1 - sel) * rl')) / (b * T)

/-- Rotation loss, `rot6d`: plain `F.mse_loss` (mean over every element)
against the 6D encoding of the target quaternion; the quaternion→6D
conversion is the external `RotationMatrixTransform` collaborator, passed in
as `quatToOrtho6d`.  No trajectory mask. -/
def rotLossRot6d (b T : ℕ) (predRot : Fin b → Fin T → Fin 6 → ℝ)
    (tgtRot : Fin b → Fin T → Fin 4 → ℝ) (quatToOrtho6d : (Fin 4 → ℝ) → Fin 6 → ℝ) : ℝ :=
  (∑ i, ∑ t, ∑ c, (predRot i t c - quatToOrtho6d (tgtRot i t) c) ^ 2) / (b * T * 6)

/-- Embeds `tgt_rot_ = tgt_rot.clone(); tgt_rot_[tgt_rot < 0] += 2;
tgt_rot_[tgt_rot > 0] -= 2` — the wrap-around shifted target. -/
def eulerWrap (x : ℝ) : ℝ := if x < 0 then x + 2 else if 0 < x then x - 2 else x

/-- Rotation loss, `euler`: elementwise MSE against the target and its
wrap-shifted copy, elementwise minimum via `select_mask`, then `.mean()`.
No trajectory mask. -/
def rotLossEuler (b T : ℕ) (predRot tgtRot : Fin b → Fin T → Fin 3 → ℝ) : ℝ :=
  (∑ i, ∑ t, ∑ c,
    (let rl := (predRot i t c - tgtRot i t c) ^ 2
     let rl' := (predRot i t c - eulerWrap (tgtRot i t c)) ^ 2
     let sel : ℝ := if rl < rl' then 1 else 0
     sel * rl + (1 - sel) * rl')) / (b * T * 3)

/-- Rotation loss, `euler_disc`: per-axis cross-entropy with integer bin
targets (`tgt_rot.long()`, assumed in range, hence `Fin E`), masked by the
step mask and normalized by `mask.sum() * 3`. -/
def rotLossEulerDisc (b T E : ℕ) (predRot : Fin b → Fin T → Fin E → Fin 3 → ℝ)
    (tgtRotDisc : Fin b → Fin T → Fin 3 → Fin E) (mask : Fin b → Fin T → ℝ) : ℝ :=
  (∑ i, ∑ t, ∑ c : Fin 3,
    crossEntropyIdx E (fun e => predRot i t e c) (tgtRotDisc i t c) * mask i t)
    / (∑ i, ∑ t, mask i t) / 3

/-- Rotation loss, `euler_delta` (the code's `else`): plain `F.mse_loss`
mean.  No trajectory mask. -/
def rotLossEulerDelta (b T : ℕ) (predRot tgtRot : Fin b → Fin T → Fin 3 → ℝ) : ℝ :=
  (∑ i, ∑ t, ∑ c, (predRot i t c - tgtRot i t c) ^ 2) / (b * T * 3)

/-- The openness / stop loss pattern:
`(binary_cross_entropy_with_logits(pred, tgt, 'none') * mask).sum() / mask.sum()`. -/
def maskedBCEMean (b T : ℕ) (pred tgt mask : Fin b → Fin T → ℝ) : ℝ :=
  (∑ i, ∑ t, bceWithLogits (pred i t) (tgt i t) * mask i t) / (∑ i, ∑ t, mask i t)

/-- Embeds `MotionPlannerPTV3AdaNorm.compute_loss` (shared by both model variants):
dispatch the position and rotation losses on the configured modes, compute
the openness and stop losses, and return the dictionary with
`total = pos_weight * pos + rot_weight * rot + open + stop`. -/
def compute_loss (b T B E : ℕ) (n : Fin b → ℕ) (cfg : LossConfig)
    (ins : LossInputs b T B E n) : LossDict :=
  let pos_loss :=
    match cfg.pos_pred_type with
    | .heatmap_disc => posLossDisc b T B n ins.predPosDisc ins.discPosProbs ins.masks
    | .heatmap_mlp => posLossMLP b T ins.predPos ins.tgtPos ins.masks
  let rot_loss :=
    match cfg.rot_pred_type with
    | .quat => rotLossQuat b T ins.predRotQuat ins.tgtRotQuat
    | .rot6d => rotLossRot6d b T ins.predRot6d ins.tgtRotQuat ins.quatToOrtho6d
    | .euler => rotLossEuler b T ins.predRotEuler ins.tgtRotEuler
    | .euler_disc => rotLossEulerDisc b T E ins.predRotEulerDisc ins.tgtRotEulerDisc ins.masks
    | .euler_delta => rotLossEulerDelta b T ins.predRotEuler ins.tgtRotEuler
  let open_loss := maskedBCEMean b T ins.predOpen ins.tgtOpen ins.masks
  let stop_loss := maskedBCEMean b T ins.predStop ins.tgtStops ins.masks
  { pos := pos_loss, rot := rot_loss, «open» := open_loss, stop := stop_loss,
    total := cfg.pos_weight * pos_loss + cfg.rot_weight * rot_loss + open_loss + stop_loss }

/-! ## MotionPlannerPTV3AdaNorm.forward — final-action assembly

In `heatmap_disc` position mode the forward pass either decodes the discrete
heatmap through the external `get_best_pos_from_disc_pos` utility
(`compute_final_action=True`, the default) or sets
`pred_pos = batch['gt_trajs'][..., :3]`.  A missing `gt_trajs` key raises in
Python; `gtTrajs` is therefore an `Option` and the lookup is `Option.map`.
The ground-truth action width is `k + 4` (3 position channels, a rotation
block, 1 openness channel). -/

/-- Selection of `pred_pos` in `forward` (the `heatmap_mlp` branch keeps the
head's position output; `decodedPos` stands for the external discrete-heatmap
decoding loop). -/
def selectPredPos (b T k : ℕ) (ppt : PosPredType) (computeFinalAction : Bool)
    (headPos decodedPos : Fin b → Fin T → Fin 3 → ℝ)
    (gtTrajs : Option (Fin b → Fin T → Fin (k + 4) → ℝ)) :
    Option (Fin b → Fin T → Fin 3 → ℝ) :=
  match ppt with
  | .heatmap_disc =>
      if computeFinalAction then some decodedPos
      else gtTrajs.map (fun g i t c => g i t (Fin.castLE (Nat.le_add_left 3 (k + 1)) c))
  | .heatmap_mlp => some headPos

/-- Embeds `torch.cat([pred_pos, pred_rot, pred_open.unsqueeze(-1), pred_stop.unsqueeze(-1)], dim=-1)`
for the quaternion rotation width: channels `3 + 4 + 1 + 1`. -/
def finalPredActions (b T : ℕ) (pos : Fin b → Fin T → Fin 3 → ℝ)
    (rotQ : Fin b → Fin T → Fin 4 → ℝ) (openv stopv : Fin b → Fin T → ℝ) :
    Fin b → Fin T → Fin (3 + 4 + 1 + 1) → ℝ :=
  fun i t =>
    Fin.append (Fin.append (Fin.append (fun c : Fin 3 => pos i t c) (fun c : Fin 4 => rotQ i t c))
      (fun _ : Fin 1 => openv i t)) (fun _ : Fin 1 => stopv i t)

/-! ## Concrete instances used by the counterexamples -/

/-- A concrete all-zero loss-input bundle: 1 sample, 2 trajectory steps,
1 point, 1 bin, 1 Euler bin; step 0 unmasked, step 1 masked. -/
def insA : LossInputs 1 2 1 1 (fun _ => 1) where
  predPos := fun _ _ _ => 0
  predPosDisc := fun _ _ _ _ _ => 0
  predRotQuat := fun _ _ _ => 0
  predRot6d := fun _ _ _ => 0
  predRotEuler := fun _ _ _ => 0
  predRotEulerDisc := fun _ _ _ _ => 0
  predOpen := fun _ _ => 0
  predStop := fun _ _ => 0
  tgtPos := fun _ _ _ => 0
  tgtRotQuat := fun _ _ _ => 0
  tgtRotEuler := fun _ _ _ => 0
  tgtRotEulerDisc := fun _ _ _ => 0
  tgtOpen := fun _ _ => 0
  tgtStops := fun _ _ => 0
  discPosProbs := fun _ _ _ _ _ => 0
  masks := fun _ t => if t.val = 0 then 1 else 0
  quatToOrtho6d := fun _ _ => 0

/-- A target quaternion that differs from `insA.tgtRotQuat` only at the
masked trajectory step 1. -/
def tgtRotQuatB : Fin 1 → Fin 2 → Fin 4 → ℝ := fun _ t _ => if t.val = 0 then 0 else 2

/-- The loss configuration of the counterexamples: `heatmap_mlp` position,
`quat` rotation, both loss weights 1. -/
def cfgQ : LossConfig := ⟨PosPredType.heatmap_mlp, RotPredType.quat, 1, 1⟩

/-- Copy of `insA` with only the target quaternion of the masked step 1 changed. -/
def insB : LossInputs 1 2 1 1 (fun _ => 1) := { insA with tgtRotQuat := tgtRotQuatB }

/-- Concrete `action_mlp` output for the `attn`-branch evaluation: 1 point,
2 trajectory steps, 1 channel; value 3 at step 0 and 7 at step 1. -/
def attnA : Fin 1 → Fin 2 → Fin 1 → ℝ := fun _ t _ => if t.val = 0 then 3 else 7

/-- The same data laid out for the spec's reading of the `attn` branch:
channel 0 is the attention logit (0 everywhere), channel 1 the value
(3 at step 0, 7 at step 1). -/
def attnS : Fin 1 → Fin 2 → Fin 2 → ℝ :=
  fun _ t c => if c.val = 0 then 0 else if t.val = 0 then 3 else 7

/-! ## Helper lemmas -/

/-- The `select_mask` combination `sel * a + (1 - sel) * b` with
`sel = (a < b).float()` is the pointwise minimum. -/
theorem selectMask_eq_min (a b : ℝ) :
    (if a < b then (1 : ℝ) else 0) * a + (1 - if a < b then (1 : ℝ) else 0) * b = min a b := by
  split_ifs with h
  · simp [min_eq_left h.le]
  · simp [min_eq_right (not_lt.mp h)]

theorem list_sum_map_div {α : Type} (xs : List α) (f : α → ℝ) (S : ℝ) :
    (xs.map (fun x => f x / S)).sum = (xs.map f).sum / S := by
  induction xs with
  | nil => simp
  | cons a l ih => simp [ih, add_div]

/-- Softmax weights over a nonempty group sum to 1. -/
theorem softmaxL_sum_one (temp : ℝ) (xs : List ℝ) (hx : xs ≠ []) :
    (softmaxL temp xs).sum = 1 := by
  have hpos : 0 < (xs.map (fun y => Real.exp (y / temp))).sum := by
    refine List.sum_pos _ (fun a ha => ?_) (by simpa using hx)
    obtain ⟨y, _, rfl⟩ := List.mem_map.mp ha
    exact Real.exp_pos _
  rw [softmaxL, list_sum_map_div, div_self hpos.ne']

theorem splitCounts_length {α : Type} (ns : List ℕ) (xs : List α) :
    (splitCounts ns xs).length = ns.length := by
  induction ns generalizing xs with
  | nil => simp [splitCounts]
  | cons n ns ih => simp [splitCounts, ih]

/-- Key `torch.split` semantics: the `i`-th group is `take nᵢ` after dropping the
previous groups' points. -/
theorem splitCounts_get {α : Type} (ns : List ℕ) (xs : List α) (i : ℕ) (hi : i < ns.length) :
    (splitCounts ns xs).get ⟨i, by rw [splitCounts_length]; exact hi⟩
      = (xs.drop ((ns.take i).sum)).take (ns.get ⟨i, hi⟩) := by
  induction ns generalizing xs i with
  | nil => exact absurd hi (Nat.not_lt_zero i)
  | cons n ns ih =>
    cases i with
    | zero => simp [splitCounts]
    | succ i =>
      have hi' : i < ns.length := Nat.lt_of_succ_lt_succ hi
      have := ih (xs.drop n) i hi'
      simp only [splitCounts, List.get_eq_getElem, List.getElem_cons_succ] at this ⊢
      rw [this, List.drop_drop, List.take_succ_cons, List.sum_cons]

/-! ## C5: quaternion rotation loss is sign-invariant in the target -/

/-- C5: when the rotation representation is `quat`, the rotation loss of
`compute_loss` is invariant to negating the target quaternion: per
(sample, step) the lower of the MSE against the target and against its
sign-flipped copy is selected before averaging, and that minimum is symmetric
under `q ↦ -q`. -/
theorem rotLossQuat_neg_invariant (b T : ℕ) (pred tgt : Fin b → Fin T → Fin 4 → ℝ) :
    rotLossQuat b T pred (fun i t c => -tgt i t c) = rotLossQuat b T pred tgt := by
  unfold rotLossQuat
  congr 1
  refine Finset.sum_congr rfl (fun i _ => Finset.sum_congr rfl (fun t _ => ?_))
  have hnn : (fun c => - -tgt i t c) = tgt i t := by funext c; exact neg_neg _
  simp only [hnn, selectMask_eq_min]
  exact min_comm _ _

/-! ## C7: the loss dictionary and the total formula -/

/-- C7: for every configuration and every batch, `compute_loss` returns the
dictionary with exactly the keys `pos`, `rot`, `open`, `stop`, `total`
(the fields of `LossDict`), where `total` is
`pos_weight * pos + rot_weight * rot + open + stop` — openness and stop
losses enter unweighted. -/
theorem compute_loss_total_formula (b T B E : ℕ) (n : Fin b → ℕ) (cfg : LossConfig)
    (ins : LossInputs b T B E n) :
    (compute_loss b T B E n cfg ins).total
      = cfg.pos_weight * (compute_loss b T B E n cfg ins).pos
        + cfg.rot_weight * (compute_loss b T B E n cfg ins).rot
        + (compute_loss b T B E n cfg ins).«open»
        + (compute_loss b T B E n cfg ins).stop := rfl

/-! ## C10: the head reads `coords` only in `heatmap_mlp` mode -/

/-- C10: `ActionHead.forward` reads `coords` only in `heatmap_mlp` position
mode.  In `heatmap_disc` mode the result is identical for every `coords`
value (including `none`) and the call completes; in `heatmap_mlp` mode
`coords = none` makes the position computation fail
(`coords.unsqueeze(1)` on `None`). -/
theorem actionHeadPos_coords_usage (T B : ℕ) (hm4 : List (Fin T → Fin 4 → ℝ))
    (hmD : List (Fin T → Fin 3 → Fin B → ℝ)) (coords coords' : Option (List (Fin 3 → ℝ)))
    (ns : List ℕ) (temp : ℝ) :
    (actionHeadPos T B .heatmap_disc hm4 hmD coords ns temp
        = actionHeadPos T B .heatmap_disc hm4 hmD coords' ns temp)
    ∧ (actionHeadPos T B .heatmap_disc hm4 hmD none ns temp).isSome = true
    ∧ actionHeadPos T B .heatmap_mlp hm4 hmD none ns temp = none :=
  ⟨rfl, rfl, rfl⟩

/-! ## C9: `heatmap_disc` with `compute_final_action=False` copies the
ground truth position -/

/-- C9: in `heatmap_disc` position mode with `compute_final_action=False`,
the position written into the final action tensor is taken verbatim from the
first three channels of `gt_trajs` — and the batch must contain `gt_trajs`
(a missing key, modelled as `none`, makes `forward` fail). -/
theorem forward_disc_uses_gt_position (b T k : ℕ)
    (headPos decodedPos : Fin b → Fin T → Fin 3 → ℝ)
    (g : Fin b → Fin T → Fin (k + 4) → ℝ)
    (rotQ : Fin b → Fin T → Fin 4 → ℝ) (openv stopv : Fin b → Fin T → ℝ) :
    (selectPredPos b T k .heatmap_disc false headPos decodedPos (some g)
        = some (fun i t c => g i t (Fin.castLE (Nat.le_add_left 3 (k + 1)) c)))
    ∧ (∀ (i : Fin b) (t : Fin T) (c : Fin 3),
        finalPredActions b T (fun i t c => g i t (Fin.castLE (Nat.le_add_left 3 (k + 1)) c))
          rotQ openv stopv i t (Fin.castAdd 1 (Fin.castAdd 1 (Fin.castAdd 4 c)))
          = g i t (Fin.castLE (Nat.le_add_left 3 (k + 1)) c))
    ∧ selectPredPos b T k .heatmap_disc false headPos decodedPos none = none := by
  refine ⟨rfl, fun i t c => ?_, rfl⟩
  simp [finalPredActions, Fin.append_left]

/-! ## C2: quaternion head output norm -/

/-- C2 (amended): whenever the raw 4-channel rotation slice of the pooled
action embeddings is not the zero vector, the quaternion returned by
`ActionHead.forward` has unit L2 norm.  (At the zero vector the unguarded
division `xr / sqrt(0)` yields NaN in floating point — the zero vector in
this exact model — so the unqualified claim fails; see the
counterexample.) -/
theorem quatHead_unit_norm (b T k : ℕ) (a : Fin b → Fin T → Fin (k + 4) → ℝ)
    (i : Fin b) (t : Fin T)
    (h : ∃ c : Fin 4, a i t (Fin.castLE (Nat.le_add_left 4 k) c) ≠ 0) :
    Real.sqrt (∑ c, (quatHead b T k a i t c) ^ 2) = 1 := by
  obtain ⟨c₀, hc₀⟩ := h
  set q : Fin 4 → ℝ := fun c => a i t (Fin.castLE (Nat.le_add_left 4 k) c) with hq
  have hs : 0 < ∑ j, q j ^ 2 := by
    refine Finset.sum_pos' (fun j _ => sq_nonneg _) ⟨c₀, Finset.mem_univ _, ?_⟩
    exact pow_two_pos_of_ne_zero hc₀
  have hsqrt : 0 < Real.sqrt (∑ j, q j ^ 2) := Real.sqrt_pos.mpr hs
  have hsum : (∑ c, (quatHead b T k a i t c) ^ 2) = 1 := by
    simp only [quatHead, normalizeQuat, ← hq, div_pow, ← Finset.sum_div]
    rw [Real.sq_sqrt hs.le, div_self hs.ne']
  rw [hsum, Real.sqrt_one]

/-- C2 witness instance: the constant embedding 1 has a nonzero rotation
slice, and the head's quaternion has unit norm there. -/
theorem quatHead_unit_norm_witness :
    ((fun _ _ _ => (1 : ℝ)) : Fin 1 → Fin 1 → Fin (0 + 4) → ℝ) 0 0
        (Fin.castLE (Nat.le_add_left 4 0) 0) ≠ 0
    ∧ Real.sqrt (∑ c, (quatHead 1 1 0 (fun _ _ _ => (1 : ℝ)) 0 0 c) ^ 2) = 1 :=
  ⟨one_ne_zero, quatHead_unit_norm 1 1 0 (fun _ _ _ => 1) 0 0 ⟨0, one_ne_zero⟩⟩

/-- C2 counterexample: when the raw rotation slice is the all-zero vector
(e.g. a zero `action_mlp` output), the normalized quaternion is the zero
vector — its norm is 0, not 1, so the head output is not unit-norm
"regardless of input". -/
theorem quatHead_zero_not_unit :
    Real.sqrt (∑ c, (quatHead 1 1 0 (fun _ _ _ => (0 : ℝ)) 0 0 c) ^ 2) ≠ 1 := by
  simp [quatHead, normalizeQuat]

/-! ## C8: zero-denominator normalizations are unguarded -/

/-- C8 (amended): none of the zero-denominator sites is guarded or raises:
with a fully-masked batch the mask-sum denominator of the position, openness
and stop losses is 0 and each loss still evaluates (to the junk value 0 in
this exact model, where `x / 0 = 0`; NaN in floating point), and the
all-zero quaternion is divided by `sqrt 0 = 0`, yielding the zero vector.
Nonzero denominators are an unchecked caller obligation. -/
theorem zero_denominators_unguarded (b T B : ℕ) (n : Fin b → ℕ)
    (predPos tgtPos : Fin b → Fin T → Fin 3 → ℝ)
    (predPosDisc discPosProbs : (i : Fin b) → Fin T → Fin 3 → Fin (n i) → Fin B → ℝ)
    (predOpen tgtOpen predStop tgtStops : Fin b → Fin T → ℝ)
    (mask : Fin b → Fin T → ℝ) (hm : ∀ i t, mask i t = 0) :
    (∑ i, ∑ t, mask i t) = 0
    ∧ maskedBCEMean b T predOpen tgtOpen mask = 0
    ∧ maskedBCEMean b T predStop tgtStops mask = 0
    ∧ posLossMLP b T predPos tgtPos mask = 0
    ∧ posLossDisc b T B n predPosDisc discPosProbs mask = 0
    ∧ (∀ c, normalizeQuat (fun _ => 0) c = 0) := by
  refine ⟨by simp [hm], ?_, ?_, ?_, ?_, fun c => by simp [normalizeQuat]⟩
  · simp [maskedBCEMean, hm]
  · simp [maskedBCEMean, hm]
  · simp [posLossMLP, hm]
  · simp [posLossDisc, hm]

/-- C8 witness instance: a concrete fully-masked batch (1 sample, 1 step,
all tensors zero). -/
theorem zero_denominators_unguarded_witness :
    (∀ (i : Fin 1) (t : Fin 1), ((fun (_ : Fin 1) (_ : Fin 1) => (0 : ℝ)) i t) = 0)
    ∧ maskedBCEMean 1 1 (fun _ _ => 0) (fun _ _ => 0) (fun _ _ => 0) = 0 :=
  ⟨fun _ _ => rfl,
    (zero_denominators_unguarded 1 1 1 (fun _ => 1) (fun _ _ _ => 0) (fun _ _ _ => 0)
      (fun _ _ _ _ _ => 0) (fun _ _ _ _ _ => 0) (fun _ _ => 0) (fun _ _ => 0) (fun _ _ => 0)
      (fun _ _ => 0) (fun _ _ => 0) (fun _ _ => rfl)).2.1⟩

/-- C8 counterexample: at a fully-masked concrete input the openness-loss
denominator `tgt_traj_masks.sum()` is 0, yet the loss is still computed —
the division is performed unguarded (producing 0 here, NaN in floating
point), and likewise `normalizeQuat` divides the zero vector by 0 — refuting
the claim that every zero-denominator normalization raises a defined failure
or is explicitly guarded. -/
theorem zero_denominator_division_performed :
    (∑ i : Fin 1, ∑ t : Fin 1, ((fun (_ : Fin 1) (_ : Fin 1) => (0 : ℝ)) i t)) = 0
    ∧ maskedBCEMean 1 1 (fun _ _ => 1) (fun _ _ => 1) (fun _ _ => 0) = 0
    ∧ normalizeQuat (fun _ => 0) 0 = 0 := by
  refine ⟨by simp, ?_, by simp [normalizeQuat]⟩
  simp [maskedBCEMean]

/-! ## C4: the two variants' label-embedding weighting -/

/-- C4: the CA variant's label embedding is the per-point weighted sum of the
four class-embedding vectors with the point's label vector as weights — but
the AdaNorm variant's expression broadcasts the `(1,1,4,C)` embedding table
against the `(npoints,4)` label tensor, which is not even
broadcast-compatible for `npoints = 2, C = 4` (dimension pair `4` vs `2`):
the AdaNorm line fails instead of computing the weighted sum. -/
theorem pc_label_embeds_variants :
    adaNormLabelBroadcast 2 4 = none
    ∧ ∀ (C n : ℕ) (emb : Fin 4 → Fin C → ℝ) (labels : Fin n → Fin 4 → ℝ)
        (p : Fin n) (c : Fin C),
        caPcLabelEmbeds C n emb labels p c = specLabelWeightedSum C n emb labels p c := by
  refine ⟨by decide, fun C n emb labels p c => ?_⟩
  simp [caPcLabelEmbeds, specLabelWeightedSum, mul_comm]

/-! ## C3: the `attn` reduction slices the wrong dimension -/

/-- C3: evaluation of the `attn` branch as written.  With `max_traj_len = 2`
and one point, the code (`attnPoolCode`, which embeds
`action_embeds[:, :1]` / `action_embeds[:, 1:]`) produces a single pooled
step whose value is the raw step-1 MLP output 7 — the step-0 embedding of
each channel having served as its own attention logit — whereas the
spec-described computation (`attnPoolSpec`: channel 0 is the per-point
logit, remaining channels are pooled per step) yields one pooled value per
trajectory step, 3 at step 0 and 7 at step 1. -/
theorem attn_branch_slices_traj_dim :
    attnPoolCode 1 1 1 attnA 1 0 0 = 7
    ∧ attnPoolSpec 1 2 1 attnS 1 0 0 = 3
    ∧ attnPoolSpec 1 2 1 attnS 1 1 0 = 7 := by
  refine ⟨?_, ?_, ?_⟩ <;>
    simp [attnPoolCode, attnPoolSpec, softmaxFin, attnA, attnS,
      div_self (Real.exp_ne_zero _)]

/-! ## C1: which loss terms masked steps can influence -/

/-- C1 (amended): replacing the ground-truth position, openness target, stop
flag and discretized-position target distribution of every step whose
validity mask is 0 changes neither the position loss (in either position
mode), nor the openness loss, nor the stop loss; the rotation loss is also
unchanged in the `euler_disc` representation (the only masked rotation
branch).  The `quat`, `rot6d`, `euler` and `euler_delta` rotation losses
average over all steps without the mask, so masked-step rotation targets do
influence them (see the counterexample). -/
theorem masked_steps_invariance (b T B E : ℕ) (n : Fin b → ℕ) (cfg : LossConfig)
    (ins ins' : LossInputs b T B E n)
    (hmask : ins'.masks = ins.masks)
    (hpredPos : ins'.predPos = ins.predPos)
    (hpredDisc : ins'.predPosDisc = ins.predPosDisc)
    (hpredOpen : ins'.predOpen = ins.predOpen)
    (hpredStop : ins'.predStop = ins.predStop)
    (hpredRotED : ins'.predRotEulerDisc = ins.predRotEulerDisc)
    (htgtPos : ∀ i t, ins.masks i t ≠ 0 → ins'.tgtPos i t = ins.tgtPos i t)
    (htgtProbs : ∀ i t, ins.masks i t ≠ 0 → ins'.discPosProbs i t = ins.discPosProbs i t)
    (htgtOpen : ∀ i t, ins.masks i t ≠ 0 → ins'.tgtOpen i t = ins.tgtOpen i t)
    (htgtStops : ∀ i t, ins.masks i t ≠ 0 → ins'.tgtStops i t = ins.tgtStops i t)
    (htgtRotED : ∀ i t, ins.masks i t ≠ 0 → ins'.tgtRotEulerDisc i t = ins.tgtRotEulerDisc i t) :
    (compute_loss b T B E n cfg ins').pos = (compute_loss b T B E n cfg ins).pos
    ∧ (compute_loss b T B E n cfg ins').«open» = (compute_loss b T B E n cfg ins).«open»
    ∧ (compute_loss b T B E n cfg ins').stop = (compute_loss b T B E n cfg ins).stop
    ∧ (cfg.rot_pred_type = RotPredType.euler_disc →
        (compute_loss b T B E n cfg ins').rot = (compute_loss b T B E n cfg ins).rot) := by
  obtain ⟨ppt, rpt, pw, rw⟩ := cfg
  refine ⟨?_, ?_, ?_, ?_⟩
  · show (match ppt with
      | .heatmap_disc => posLossDisc b T B n ins'.predPosDisc ins'.discPosProbs ins'.masks
      | .heatmap_mlp => posLossMLP b T ins'.predPos ins'.tgtPos ins'.masks) = _
    cases ppt
    · show posLossMLP b T ins'.predPos ins'.tgtPos ins'.masks
        = posLossMLP b T ins.predPos ins.tgtPos ins.masks
      unfold posLossMLP
      rw [hmask, hpredPos]
      congr 2
      refine Finset.sum_congr rfl (fun i _ => Finset.sum_congr rfl (fun t _ => ?_))
      by_cases h : ins.masks i t = 0
      · simp [h]
      · rw [htgtPos i t h]
    · show posLossDisc b T B n ins'.predPosDisc ins'.discPosProbs ins'.masks
        = posLossDisc b T B n ins.predPosDisc ins.discPosProbs ins.masks
      unfold posLossDisc
      rw [hmask, hpredDisc]
      congr 1
      refine Finset.sum_congr rfl (fun i _ => ?_)
      congr 1
      refine Finset.sum_congr rfl (fun t _ => ?_)
      by_cases h : ins.masks i t = 0
      · simp [h]
      · rw [htgtProbs i t h]
  · show maskedBCEMean b T ins'.predOpen ins'.tgtOpen ins'.masks = _
    unfold maskedBCEMean
    rw [hmask, hpredOpen]
    congr 1
    refine Finset.sum_congr rfl (fun i _ => Finset.sum_congr rfl (fun t _ => ?_))
    by_cases h : ins.masks i t = 0
    · simp [h]
    · rw [htgtOpen i t h]
  · show maskedBCEMean b T ins'.predStop ins'.tgtStops ins'.masks = _
    unfold maskedBCEMean
    rw [hmask, hpredStop]
    congr 1
    refine Finset.sum_congr rfl (fun i _ => Finset.sum_congr rfl (fun t _ => ?_))
    by_cases h : ins.masks i t = 0
    · simp [h]
    · rw [htgtStops i t h]
  · intro hrpt
    subst hrpt
    show rotLossEulerDisc b T E ins'.predRotEulerDisc ins'.tgtRotEulerDisc ins'.masks
      = rotLossEulerDisc b T E ins.predRotEulerDisc ins.tgtRotEulerDisc ins.masks
    unfold rotLossEulerDisc
    rw [hmask, hpredRotED]
    congr 2
    refine Finset.sum_congr rfl (fun i _ => Finset.sum_congr rfl (fun t _ => ?_))
    by_cases h : ins.masks i t = 0
    · simp [h]
    · rw [htgtRotED i t h]

/-- C1 witness instance: with every step of `insA`'s trajectory compared
against `insB` (which changes only the masked step 1's rotation target), the
position loss is unchanged. -/
theorem masked_steps_invariance_witness :
    insB.masks = insA.masks
    ∧ (compute_loss 1 2 1 1 (fun _ => 1) cfgQ insB).pos
        = (compute_loss 1 2 1 1 (fun _ => 1) cfgQ insA).pos :=
  ⟨rfl, (masked_steps_invariance 1 2 1 1 (fun _ => 1) cfgQ insA insB rfl rfl rfl rfl rfl rfl
      (fun _ _ _ => rfl) (fun _ _ _ => rfl) (fun _ _ _ => rfl) (fun _ _ _ => rfl)
      (fun _ _ _ => rfl)).1⟩

/-- C1 counterexample: `insB` differs from `insA` only in the ground-truth
quaternion of trajectory step 1, whose validity mask is 0 — yet the `quat`
rotation loss (and hence the total) changes, because that branch averages
with `.mean()` over all steps without applying `tgt_traj_masks`.  This
refutes the claim that masked steps influence no loss term. -/
theorem quat_rot_loss_not_masked :
    insB.masks 0 1 = 0
    ∧ insB.masks = insA.masks
    ∧ insB.tgtRotQuat 0 0 = insA.tgtRotQuat 0 0
    ∧ (compute_loss 1 2 1 1 (fun _ => 1) cfgQ insB).rot
        ≠ (compute_loss 1 2 1 1 (fun _ => 1) cfgQ insA).rot := by
  have hA : (compute_loss 1 2 1 1 (fun _ => 1) cfgQ insA).rot = 0 := by
    show rotLossQuat 1 2 insA.predRotQuat insA.tgtRotQuat = 0
    simp [rotLossQuat, mseMeanLast, insA]
  have hB : (compute_loss 1 2 1 1 (fun _ => 1) cfgQ insB).rot = 2 := by
    show rotLossQuat 1 2 insB.predRotQuat insB.tgtRotQuat = 2
    simp only [insB, insA, tgtRotQuatB, rotLossQuat, mseMeanLast, Fin.sum_univ_two,
      Fin.sum_univ_four, Fin.sum_univ_one, Fin.val_zero, Fin.val_one]
    norm_num
  refine ⟨by simp [insB, insA], rfl, ?_, ?_⟩
  · funext c
    simp [insB, insA, tgtRotQuatB]
  · rw [hA, hB]
    norm_num

/-! ## C6: `heatmap_mlp` position is a softmax-weighted sum per sample -/

theorem posHeatmapMLP_length (T : ℕ) (hm : List (Fin T → Fin 4 → ℝ))
    (coords : List (Fin 3 → ℝ)) (ns : List ℕ) (temp : ℝ) :
    (posHeatmapMLP T hm coords ns temp).length = ns.length := by
  simp [posHeatmapMLP, List.length_zipWith, splitCounts_length]

theorem list_get_zipWith {α β γ : Type} (f : α → β → γ) (as : List α) (bs : List β) (i : ℕ)
    (h : i < (List.zipWith f as bs).length) (h1 : i < as.length) (h2 : i < bs.length) :
    (List.zipWith f as bs).get ⟨i, h⟩ = f (as.get ⟨i, h1⟩) (bs.get ⟨i, h2⟩) := by
  simp [List.get_eq_getElem, List.getElem_zipWith]

theorem zipWith_apply_sum {T : ℕ} (W : List ℝ) (C : List (Fin T → Fin 3 → ℝ))
    (t : Fin T) (j : Fin 3) :
    (List.zipWith (fun w nc => w * nc t j) W C).sum
      = (List.zipWith (fun w pr => w * pr) W (C.map (fun nc => nc t j))).sum := by
  induction W generalizing C with
  | nil => simp
  | cons w ws ih =>
    cases C with
    | nil => simp
    | cons c cs => simp [ih]

theorem sum_take_add_get_le (ns : List ℕ) (i : ℕ) (hi : i < ns.length) :
    (ns.take i).sum + ns.get ⟨i, hi⟩ ≤ ns.sum := by
  have h1 : (ns.take (i + 1)).sum = (ns.take i).sum + ns.get ⟨i, hi⟩ := by
    simpa using List.sum_take_succ ns i hi
  have h2 : ns.sum = (ns.take (i + 1)).sum + (ns.drop (i + 1)).sum := by
    rw [← List.sum_append, List.take_append_drop]
  omega

/-- C6: in `heatmap_mlp` position mode, for every valid per-sample
point-count partition (counts positive, summing to the number of points),
every sample `i`, step `t` and axis `j`, the softmax weights over sample
`i`'s points sum to 1, and the head's position output for that sample equals
the weighted sum, over exactly that sample's contiguous block of points, of
softmax(logit/temp) times (point coordinate + predicted offset). -/
theorem heatmap_mlp_softmax_convex (T : ℕ) (temp : ℝ) (hm : List (Fin T → Fin 4 → ℝ))
    (coords : List (Fin 3 → ℝ)) (ns : List ℕ)
    (hlen : coords.length = hm.length) (hsum : ns.sum = hm.length)
    (hpos : ∀ m ∈ ns, 0 < m) (i : ℕ) (hi : i < ns.length) (t : Fin T) (j : Fin 3) :
    (softmaxL temp
        (((hm.drop ((ns.take i).sum)).take (ns.get ⟨i, hi⟩)).map (fun h => h t 0))).sum = 1
    ∧ (posHeatmapMLP T hm coords ns temp).get
        ⟨i, by rw [posHeatmapMLP_length]; exact hi⟩ t j
      = (List.zipWith (fun w pr => w * pr)
          (softmaxL temp
            (((hm.drop ((ns.take i).sum)).take (ns.get ⟨i, hi⟩)).map (fun h => h t 0)))
          (((List.zipWith (fun h c => c j + h t j.succ) hm coords).drop
              ((ns.take i).sum)).take (ns.get ⟨i, hi⟩))).sum := by
  have hle : (ns.take i).sum + ns.get ⟨i, hi⟩ ≤ hm.length :=
    hsum ▸ sum_take_add_get_le ns i hi
  have hcnt : 0 < ns.get ⟨i, hi⟩ := hpos _ (List.get_mem ns i hi)
  constructor
  · have hlength :
        ((((hm.drop ((ns.take i).sum)).take (ns.get ⟨i, hi⟩)).map
          (fun h => h t 0))).length = ns.get ⟨i, hi⟩ := by
      simp only [List.length_map, List.length_take, List.length_drop]
      omega
    refine softmaxL_sum_one _ _ (fun hnil => ?_)
    rw [hnil] at hlength
    simp only [List.length_nil] at hlength
    omega
  · have h1 : i < (splitCounts ns (hm.map (fun h => fun t => h t 0))).length := by
      rw [splitCounts_length]; exact hi
    have h2 : i < (splitCounts ns
        (List.zipWith (fun h c => fun t j => c j + h t j.succ) hm coords)).length := by
      rw [splitCounts_length]; exact hi
    have pf : i < (List.zipWith
        (fun gh gc => fun (t : Fin T) (j : Fin 3) =>
          (List.zipWith (fun w nc => w * nc t j)
            (softmaxL temp (gh.map (fun l => l t))) gc).sum)
        (splitCounts ns (hm.map (fun h => fun t => h t 0)))
        (splitCounts ns (List.zipWith (fun h c => fun t j => c j + h t j.succ) hm coords))).length := by
      rw [List.length_zipWith, splitCounts_length, splitCounts_length, min_self]
      exact hi
    have hgetH :
        (splitCounts ns (hm.map (fun h => fun t => h t 0))).get ⟨i, h1⟩
          = ((hm.drop ((ns.take i).sum)).take (ns.get ⟨i, hi⟩)).map
              (fun h => fun t => h t 0) := by
      rw [splitCounts_get ns _ i hi, List.map_take, List.map_drop]
    have hgetC :
        (splitCounts ns (List.zipWith (fun h c => fun t j => c j + h t j.succ) hm coords)).get
          ⟨i, h2⟩
          = ((List.zipWith (fun h c => fun t j => c j + h t j.succ) hm coords).drop
              ((ns.take i).sum)).take (ns.get ⟨i, hi⟩) :=
      splitCounts_get ns _ i hi
    have hvals :
        ((((List.zipWith (fun h c => fun t j => c j + h t j.succ) hm coords).drop
            ((ns.take i).sum)).take (ns.get ⟨i, hi⟩)).map (fun nc => nc t j))
          = ((List.zipWith (fun h c => c j + h t j.succ) hm coords).drop
              ((ns.take i).sum)).take (ns.get ⟨i, hi⟩) := by
      rw [List.map_take, List.map_drop, List.map_zipWith]
    refine (congrFun (congrFun (list_get_zipWith
        (fun gh gc => fun (t : Fin T) (j : Fin 3) =>
          (List.zipWith (fun w nc => w * nc t j)
            (softmaxL temp (gh.map (fun l => l t))) gc).sum)
        (splitCounts ns (hm.map (fun h => fun t => h t 0)))
        (splitCounts ns (List.zipWith (fun h c => fun t j => c j + h t j.succ) hm coords))
        i pf h1 h2) t) j).trans ?_
    rw [hgetH, hgetC, zipWith_apply_sum, hvals, List.map_map]
    rfl

/-- C6 witness instance: a single sample with one point (partition `[1]`),
zero logits and coordinates: the softmax weights over the sample's points sum
to 1. -/
theorem heatmap_mlp_softmax_convex_witness :
    ([1] : List ℕ).sum = ([fun _ _ => 0] : List (Fin 1 → Fin 4 → ℝ)).length
    ∧ (∀ m ∈ ([1] : List ℕ), 0 < m)
    ∧ (softmaxL 1 [(0 : ℝ)]).sum = 1 :=
  ⟨rfl, by decide,
    (heatmap_mlp_softmax_convex 1 1 [fun _ _ => 0] [fun _ => 0] [1] rfl rfl
      (by decide) 0 (by decide) 0 0).1⟩

end MotionPlannerPTV3

end
